import Mathlib

/-!
Verification development for the `gwtreleaser` release pipeline
(`src/main.go`).  The pipeline's pure core is embedded shallowly:

* zip archives are lists of entries (name, directory flag, content),
  matching what Go's `archive/zip` reader exposes to the code;
* `extractGeodeFileFromZip`, `parseVersionFromGeode` and the run/artifact
  selection loop of `main` are translated statement by statement;
* the JSON decoding performed by `json.NewDecoder(rc).Decode(&mod)` is
  embedded by an executable JSON parser plus the `encoding/json`
  unmarshalling rules for the one-field struct `ModJSON`.

Error values are named after the spec's error taxonomy (§7); each one
stands for the corresponding `fmt.Errorf`/`log.Fatalf` site in the code.
-/

set_option autoImplicit false

namespace Gwtreleaser

/-- The failure taxonomy of the pipeline (spec §7).  Each constructor
stands for a distinct `fmt.Errorf` / `log.Fatalf` site in `src/main.go`. -/
inductive GwtError where
  | NoRunsFound
  | ArtifactNotFound
  | CorruptArchive
  | ModuleNotFound
  | MetadataNotFound
  | MetadataCorrupt
  | MissingVersion
  deriving DecidableEq, Repr

/-- One entry of a zip archive as Go's `archive/zip` presents it to the
code: the literal name stored in the archive, the directory flag computed
by `FileHeader.FileInfo().IsDir()`, and the entry's content bytes.  The
directory flag is an independent observation: `archive/zip` sets it when
the name ends in a slash or when the creator's external attributes mark
the entry as a directory, so an entry may have `isDir = true` while its
name carries no trailing slash. -/
structure ZipEntry where
  name : String
  isDir : Bool
  content : String
  deriving DecidableEq, Repr

/-- Embeds Go `strings.HasSuffix s suffix`: true when the bytes of
`suffix` are a suffix of the bytes of `s` (case-sensitive). -/
def goHasSuffix (s suffix : String) : Bool :=
  suffix.data.isSuffixOf s.data

/-- Embeds Go `path/filepath.Base` with the slash separator (the build the
tool runs on): empty path gives ".", trailing separators are stripped, an
all-separator path gives "/", and otherwise the last slash-separated
component is returned. -/
def filepathBase (path : String) : String :=
  match path.data.reverse with
  | [] => "."
  | rcs =>
    match rcs.dropWhile (fun c => c == '/') with
    | [] => "/"
    | rstripped => ⟨(rstripped.takeWhile (fun c => c != '/')).reverse⟩

/-- Modelled from the claim's words (C9): "the entry's name with all
leading directory components stripped (the last slash-separated path
component)".  Kept separate from `filepathBase`, which is translated from
the Go standard library, so the two can be compared. -/
def lastSlashComponent (s : String) : String :=
  ⟨(s.data.reverse.takeWhile (fun c => c != '/')).reverse⟩

/-- Embeds `extractGeodeFileFromZip` (src/main.go:243-269): scan the
archive's entries in order and return the content and
`filepath.Base`-name of the first entry whose name ends in ".geode";
error when none matches.  The Go loop performs no directory check. -/
def extractGeodeFileFromZip : List ZipEntry → Except GwtError (String × String)
  | [] => .error .ModuleNotFound
  | f :: rest =>
    if goHasSuffix f.name ".geode" then .ok (f.content, filepathBase f.name)
    else extractGeodeFileFromZip rest

/-- A workflow run as used by `main`: only the identifier steers the
logic (`latestRun.GetID()`, src/main.go:70,83). -/
structure WorkflowRun where
  id : Int
  deriving DecidableEq, Repr

/-- An artifact as used by `main`'s selection loop (src/main.go:81-87):
name and owning-run identifier. -/
structure Artifact where
  id : Int
  name : String
  workflowRunID : Int
  deriving DecidableEq, Repr

/-- The remote API operations the selector may invoke, recorded as a
trace so "never invoked" is observable. -/
inductive ApiOp where
  | listRuns
  | listArtifacts
  deriving DecidableEq, Repr

/-- Embeds the artifact scan of `main` (src/main.go:81-87): linear scan,
first artifact named "Build Output" whose owning-run id equals the
selected run's id wins (`break`). -/
def findArtifactLoop (latestID : Int) : List Artifact → Option Artifact
  | [] => none
  | a :: rest =>
    if a.name == "Build Output" && a.workflowRunID == latestID then some a
    else findArtifactLoop latestID rest

/-- Embeds the run/artifact selection of `main` (src/main.go:57-90):
list completed runs, fail with `NoRunsFound` when the list is empty,
otherwise take the first run as latest, list all artifacts, and scan for
the matching artifact, failing with `ArtifactNotFound` when none matches.
The second component records which remote listing operations were
performed before the function returned. -/
def selectRunAndArtifact (runs : List WorkflowRun) (artifacts : List Artifact) :
    Except GwtError (WorkflowRun × Artifact) × List ApiOp :=
  match runs with
  | [] => (.error .NoRunsFound, [.listRuns])
  | latest :: _ =>
    match findArtifactLoop latest.id artifacts with
    | some a => (.ok (latest, a), [.listRuns, .listArtifacts])
    | none => (.error .ArtifactNotFound, [.listRuns, .listArtifacts])

/-- JSON values as produced by the scanner of Go's `encoding/json`.
Numbers keep their lexeme: the pipeline never uses a numeric value, only
the fact that a number is not a string. -/
inductive Json where
  | null
  | bool (b : Bool)
  | num (lexeme : String)
  | str (s : String)
  | arr (elems : List Json)
  | obj (fields : List (String × Json))

/-- JSON whitespace as accepted by Go's scanner. -/
def jsonWs (c : Char) : Bool :=
  c == ' ' || c == '\t' || c == '\r' || c == '\n'

/-- Value of one hex digit, as in `encoding/json`'s `getu4`. -/
def hexDigitVal (c : Char) : Option Nat :=
  if '0' ≤ c && c ≤ '9' then some (c.toNat - 48)
  else if 'a' ≤ c && c ≤ 'f' then some (c.toNat - 87)
  else if 'A' ≤ c && c ≤ 'F' then some (c.toNat - 55)
  else none

/-- Scans a JSON string body (after the opening quote) the way Go's
scanner plus `unquote` do: the usual escapes, `\:u:` escapes with
surrogate-pair combination, unpaired surrogates replaced by U+FFFD, and
unescaped control characters rejected.  Fuel is at least the input
length, so it never runs out before the input does. -/
def parseJStringLoop : Nat → List Char → List Char → Option (String × List Char)
  | 0, _, _ => none
  | _ + 1, _, [] => none
  | fuel + 1, acc, c :: rest =>
    if c == '"' then some (⟨acc.reverse⟩, rest)
    else if c == '\\' then
      match rest with
      | [] => none
      | e :: rest2 =>
        if e == '"' then parseJStringLoop fuel ('"' :: acc) rest2
        else if e == '\\' then parseJStringLoop fuel ('\\' :: acc) rest2
        else if e == '/' then parseJStringLoop fuel ('/' :: acc) rest2
        else if e == 'b' then parseJStringLoop fuel ('\x08' :: acc) rest2
        else if e == 'f' then parseJStringLoop fuel ('\x0c' :: acc) rest2
        else if e == 'n' then parseJStringLoop fuel ('\n' :: acc) rest2
        else if e == 'r' then parseJStringLoop fuel ('\r' :: acc) rest2
        else if e == 't' then parseJStringLoop fuel ('\t' :: acc) rest2
        else if e == 'u' then
          match rest2 with
          | h1 :: h2 :: h3 :: h4 :: rest3 =>
            match hexDigitVal h1, hexDigitVal h2, hexDigitVal h3, hexDigitVal h4 with
            | some v1, some v2, some v3, some v4 =>
              let code := ((v1 * 16 + v2) * 16 + v3) * 16 + v4
              if 0xD800 ≤ code && code < 0xDC00 then
                match rest3 with
                | '\\' :: 'u' :: g1 :: g2 :: g3 :: g4 :: rest4 =>
                  match hexDigitVal g1, hexDigitVal g2, hexDigitVal g3, hexDigitVal g4 with
                  | some w1, some w2, some w3, some w4 =>
                    let code2 := ((w1 * 16 + w2) * 16 + w3) * 16 + w4
                    if 0xDC00 ≤ code2 && code2 < 0xE000 then
                      let combined := 0x10000 + (code - 0xD800) * 0x400 + (code2 - 0xDC00)
                      parseJStringLoop fuel (Char.ofNat combined :: acc) rest4
                    else parseJStringLoop fuel ('�' :: acc) rest3
                  | _, _, _, _ => parseJStringLoop fuel ('�' :: acc) rest3
                | _ => parseJStringLoop fuel ('�' :: acc) rest3
              else if 0xDC00 ≤ code && code < 0xE000 then
                parseJStringLoop fuel ('�' :: acc) rest3
              else
                parseJStringLoop fuel (Char.ofNat code :: acc) rest3
            | _, _, _, _ => none
          | _ => none
        else none
    else if c.toNat < 0x20 then none
    else parseJStringLoop fuel (c :: acc) rest

/-- Splits off a maximal run of decimal digits. -/
def parseDigits (cs : List Char) : List Char × List Char :=
  (cs.takeWhile Char.isDigit, cs.dropWhile Char.isDigit)

/-- Optional exponent part of a JSON number (Go scanner states e/sign/digits). -/
def parseExp (lex : List Char) (cs : List Char) : Option (List Char × List Char) :=
  match cs with
  | c :: rest =>
    if c == 'e' || c == 'E' then
      let (sign, rest2) : List Char × List Char :=
        match rest with
        | s :: t => if s == '+' || s == '-' then ([s], t) else ([], rest)
        | [] => ([], rest)
      let (ds, rest3) := parseDigits rest2
      if ds.isEmpty then none else some (lex ++ c :: (sign ++ ds), rest3)
    else some (lex, cs)
  | [] => some (lex, cs)

/-- Optional fraction part, then exponent part, of a JSON number. -/
def parseFracExp (lex : List Char) (cs : List Char) : Option (List Char × List Char) :=
  match cs with
  | '.' :: rest =>
    let (ds, rest2) := parseDigits rest
    if ds.isEmpty then none else parseExp (lex ++ '.' :: ds) rest2
  | _ => parseExp lex cs

/-- JSON number grammar as enforced by Go's scanner: optional minus, `0`
or a nonzero-led digit run, optional fraction, optional exponent.
Returns the lexeme and the unconsumed rest. -/
def parseNumber (cs : List Char) : Option (List Char × List Char) :=
  let (neg, cs1) : List Char × List Char :=
    match cs with
    | '-' :: t => (['-'], t)
    | _ => ([], cs)
  match cs1 with
  | '0' :: t => parseFracExp (neg ++ ['0']) t
  | c :: t =>
    if '1' ≤ c && c ≤ '9' then
      let (ds, t2) := parseDigits t
      parseFracExp (neg ++ c :: ds) t2
    else none
  | [] => none

mutual

/-- Scans one JSON value from the input, as `json.Decoder.Decode` does:
leading whitespace is skipped, the value is read, and everything after it
is returned unconsumed (trailing bytes are the next `Decode` call's
problem and never fail this one). -/
def parseVal : Nat → List Char → Option (Json × List Char)
  | 0, _ => none
  | fuel + 1, cs =>
    match cs.dropWhile jsonWs with
    | [] => none
    | c :: rest =>
      if c == '"' then
        match parseJStringLoop (rest.length + 1) [] rest with
        | some (s, r) => some (.str s, r)
        | none => none
      else if c == '\x7b' then
        match rest.dropWhile jsonWs with
        | '\x7d' :: r => some (.obj [], r)
        | _ => parseMembers fuel [] rest
      else if c == '[' then
        match rest.dropWhile jsonWs with
        | ']' :: r => some (.arr [], r)
        | _ => parseElems fuel [] rest
      else if c == 't' then
        match rest with
        | 'r' :: 'u' :: 'e' :: r => some (.bool true, r)
        | _ => none
      else if c == 'f' then
        match rest with
        | 'a' :: 'l' :: 's' :: 'e' :: r => some (.bool false, r)
        | _ => none
      else if c == 'n' then
        match rest with
        | 'u' :: 'l' :: 'l' :: r => some (.null, r)
        | _ => none
      else
        match parseNumber (c :: rest) with
        | some (lex, r) => some (.num ⟨lex⟩, r)
        | none => none

/-- Scans the members of a JSON object after the opening brace (at least
one member; the empty object is handled by `parseVal`).  Members are
accumulated in reverse and emitted in source order, duplicates kept. -/
def parseMembers : Nat → List (String × Json) → List Char → Option (Json × List Char)
  | 0, _, _ => none
  | fuel + 1, acc, cs =>
    match cs.dropWhile jsonWs with
    | '"' :: rest =>
      match parseJStringLoop (rest.length + 1) [] rest with
      | some (k, r1) =>
        match r1.dropWhile jsonWs with
        | ':' :: r2 =>
          match parseVal fuel r2 with
          | some (v, r3) =>
            match r3.dropWhile jsonWs with
            | ',' :: r4 => parseMembers fuel ((k, v) :: acc) r4
            | '\x7d' :: r4 => some (.obj ((k, v) :: acc).reverse, r4)
            | _ => none
          | none => none
        | _ => none
      | none => none
    | _ => none

/-- Scans the elements of a JSON array after the opening bracket (at
least one element; the empty array is handled by `parseVal`). -/
def parseElems : Nat → List Json → List Char → Option (Json × List Char)
  | 0, _, _ => none
  | fuel + 1, acc, cs =>
    match parseVal fuel cs with
    | some (v, r1) =>
      match r1.dropWhile jsonWs with
      | ',' :: r2 => parseElems fuel (v :: acc) r2
      | ']' :: r2 => some (.arr (v :: acc).reverse, r2)
      | _ => none
    | none => none

end

/-- Scans the first JSON value of a string, Go-`Decoder` style: `some`
with the value and the unconsumed rest, `none` on a syntax error or
truncated input.  The fuel bound `4 * length + 4` dominates the call
depth of the grammar (at most two recursive calls per consumed input
character), so `none` is only ever a genuine scan failure. -/
def goJsonNext (content : String) : Option (Json × List Char) :=
  parseVal (4 * content.data.length + 4) content.data

/-- `ModJSON` (src/main.go:21-23): the one decoded field, tagged "version". -/
structure ModJSON where
  version : String
  deriving DecidableEq, Repr

/-- Lower-cases an ASCII letter, used to model `encoding/json`'s
case-insensitive field matching. -/
def asciiLower (c : Char) : Char :=
  if 'A' ≤ c && c ≤ 'Z' then Char.ofNat (c.toNat + 32) else c

/-- Field-name matching of `encoding/json` for `ModJSON`'s single field
with tag "version": exact match preferred, case-insensitive
(`strings.EqualFold`) match accepted.  ASCII folding is modelled, which
coincides with `EqualFold` on the all-ASCII tag "version" for ASCII keys. -/
def matchesVersionField (k : String) : Bool :=
  k.data.map asciiLower == "version".data

/-- Unmarshals one object member into a `ModJSON` under Go's rules: a
member matching the "version" field must hold a string (type error
otherwise), JSON `null` leaves the field unchanged, and members matching
no field are ignored whatever their value.  Later duplicates overwrite. -/
def applyMember (m : ModJSON) (kv : String × Json) : Option ModJSON :=
  if matchesVersionField kv.1 then
    match kv.2 with
    | .str s => some ⟨s⟩
    | .null => some m
    | _ => none
  else some m

/-- Unmarshals a scanned JSON value into `ModJSON` under Go's rules: an
object is folded member by member starting from the zero value, a
top-level `null` is a no-op yielding the zero value, and any other value
is a type error. -/
def unmarshalMod : Json → Option ModJSON
  | .obj fields => fields.foldlM applyMember ⟨""⟩
  | .null => some ⟨""⟩
  | _ => none

/-- Embeds `json.NewDecoder(rc).Decode(&mod)` (src/main.go:292): scan the
first JSON value of the entry content (the decoder leaves trailing bytes
unread, and they cannot fail this call) and unmarshal it into `ModJSON`.
`none` is the decoder returning an error. -/
def decodeModJSON (content : String) : Option ModJSON :=
  match goJsonNext content with
  | some (v, _) => unmarshalMod v
  | none => none

/-- The body of `parseVersionFromGeode`'s loop once a matching entry is
found (src/main.go:291-300): a decode error maps to `MetadataCorrupt`, an
empty decoded version to `MissingVersion`, and otherwise the decoded
version is returned as-is. -/
def readModEntry (content : String) : Except GwtError String :=
  match decodeModJSON content with
  | none => .error .MetadataCorrupt
  | some m => if m.version = "" then .error .MissingVersion else .ok m.version

/-- Embeds `parseVersionFromGeode` (src/main.go:271-305): scan the nested
archive's entries in order, skip directory entries, and process the first
remaining entry whose name ends in "mod.json"; error when none matches. -/
def parseVersionFromGeode : List ZipEntry → Except GwtError String
  | [] => .error .MetadataNotFound
  | f :: rest =>
    if f.isDir then parseVersionFromGeode rest
    else if goHasSuffix f.name "mod.json" then readModEntry f.content
    else parseVersionFromGeode rest

/-- One directive of Go's `fmt` with zero operands, starting after the
percent sign: flags, width and precision are consumed; `%` followed by
`%` prints a percent sign; a trailing `%` prints "%!(NOVERB)"; any other
verb with no operand left prints "%!v(MISSING)" for that verb `v`.
(The `*` width/precision form, which would consume an operand, is not
modelled; no input considered here contains it.) -/
def goSprintfDirective (cs : List Char) : List Char × List Char :=
  let cs1 := cs.dropWhile (fun c => c == '#' || c == '0' || c == '+' || c == '-' || c == ' ')
  let cs2 := cs1.dropWhile Char.isDigit
  let cs3 : List Char :=
    match cs2 with
    | '.' :: t => t.dropWhile Char.isDigit
    | _ => cs2
  match cs3 with
  | [] => ("%!(NOVERB)".data, [])
  | c :: rest =>
    if c == '%' then (['%'], rest)
    else ("%!".data ++ c :: "(MISSING)".data, rest)

/-- Formats a string as Go's `fmt.Sprintf` does when the string is the
format and no operands are passed: literal characters are copied and each
percent directive is rendered by `goSprintfDirective`.  Fuel at least the
input length suffices, since every step consumes a character. -/
def goSprintf0 : Nat → List Char → List Char
  | 0, _ => []
  | _ + 1, [] => []
  | fuel + 1, '%' :: rest =>
    let (out, rest2) := goSprintfDirective rest
    out ++ goSprintf0 fuel rest2
  | fuel + 1, c :: rest => c :: goSprintf0 fuel rest

/-- Embeds `tagName := fmt.Sprintf(version)` (src/main.go:154): the
version string is used as a `fmt` format string with no operands. -/
def goSprintfNoOperands (s : String) : String :=
  ⟨goSprintf0 s.data.length s.data⟩

/-- The names the pipeline assigns to the tag, tag reference and release
(src/main.go:154-201).  `tagMessage` and `releaseTitle` come from
`fmt.Sprintf` calls whose format has exactly one `%s` verb matched by one
operand, which is string concatenation. -/
structure TagRelease where
  tagName : String
  tagMessage : String
  refName : String
  releaseTag : String
  releaseTitle : String
  deriving DecidableEq, Repr

/-- Embeds the tag/release naming of `main` (src/main.go:154-201). -/
def mkTagRelease (version : String) : TagRelease :=
  let tagName := goSprintfNoOperands version
  ⟨tagName, "Tag for version " ++ version, "refs/tags/" ++ tagName,
    tagName, "Release " ++ tagName⟩

/-- The entry test of `parseVersionFromGeode`'s loop: not a directory and
name ending in "mod.json" (src/main.go:278-282). -/
def modMetadataPred (e : ZipEntry) : Bool :=
  !e.isDir && goHasSuffix e.name "mod.json"

/-- Modelled from the claim's words (C5): the matched entry's content,
read as a JSON object, has a "version" member that is absent or is the
empty string.  The member named exactly "version" is looked up on the
scanned object, last occurrence winning. -/
def claimVersionAbsentOrEmpty (content : String) : Bool :=
  match goJsonNext content with
  | some (Json.obj fields, _) =>
    match fields.foldl (fun acc kv => if kv.1 == "version" then some kv.2 else acc) none with
    | none => true
    | some (Json.str s) => s == ""
    | some _ => false
  | _ => false

/-! ## Characterisation lemmas shared by the claims -/

/-- The artifact scan is the first match of the conjunction of the fixed
name and the owning-run identifier. -/
theorem findArtifactLoop_eq_find (latestID : Int) (arts : List Artifact) :
    findArtifactLoop latestID arts =
      arts.find? (fun a => a.name == "Build Output" && a.workflowRunID == latestID) := by
  induction arts with
  | nil => rfl
  | cons a rest ih =>
    by_cases hm : (a.name == "Build Output" && a.workflowRunID == latestID) = true
    · simp [findArtifactLoop, List.find?, hm]
    · simp [findArtifactLoop, List.find?, hm, ih]

/-- The module locator is the first match of the ".geode" suffix test,
with no directory check. -/
theorem extract_eq_find (es : List ZipEntry) :
    extractGeodeFileFromZip es =
      match es.find? (fun e => goHasSuffix e.name ".geode") with
      | some e => .ok (e.content, filepathBase e.name)
      | none => .error .ModuleNotFound := by
  induction es with
  | nil => rfl
  | cons f rest ih =>
    by_cases h : goHasSuffix f.name ".geode"
    · simp [extractGeodeFileFromZip, List.find?, h]
    · simp [extractGeodeFileFromZip, List.find?, h, ih]

/-- The metadata reader processes the first non-directory entry whose
name ends in "mod.json". -/
theorem parseVersion_eq_find (es : List ZipEntry) :
    parseVersionFromGeode es =
      match es.find? modMetadataPred with
      | some e => readModEntry e.content
      | none => .error .MetadataNotFound := by
  induction es with
  | nil => rfl
  | cons f rest ih =>
    by_cases hd : f.isDir
    · simp [parseVersionFromGeode, modMetadataPred, hd, List.find?, ih]
    · by_cases hs : goHasSuffix f.name "mod.json"
      · simp [parseVersionFromGeode, modMetadataPred, hd, hs, List.find?]
      · simp [parseVersionFromGeode, modMetadataPred, hd, hs, List.find?, ih]

/-- For a string whose last character is not a slash, Go's
`filepath.Base` is exactly the last slash-separated component. -/
theorem filepathBase_of_last_ne_slash (s : String) (c : Char) (t : List Char)
    (hrev : s.data.reverse = c :: t) (hc : (c == '/') = false) :
    filepathBase s = lastSlashComponent s := by
  unfold filepathBase lastSlashComponent
  rw [hrev]
  simp [List.dropWhile, hc]

/-- Any name passing the ".geode" suffix test ends in a non-slash
character, so its `filepath.Base` is its last slash-separated component. -/
theorem filepathBase_of_geode_suffix (s : String)
    (h : goHasSuffix s ".geode" = true) :
    filepathBase s = lastSlashComponent s := by
  have hsuf : ".geode".data <:+ s.data := by
    have hb : ".geode".data.isSuffixOf s.data = true := h
    exact List.isSuffixOf_iff_suffix.mp hb
  obtain ⟨pre, hp⟩ := hsuf
  have hrev : s.data.reverse = 'e' :: ('d' :: 'o' :: 'e' :: 'g' :: '.' :: pre.reverse) := by
    rw [← hp, List.reverse_append]
    rfl
  exact filepathBase_of_last_ne_slash s 'e' _ hrev rfl

/-! ## Claims -/

/-- Claim C1.  The claim says the tag name equals the version string
character for character for every version, including ones containing
format-verb characters such as percent.  The code computes the tag name
with `fmt.Sprintf(version)`, using the version as a format string with no
operands, so the version "1.0%d" yields tag name "1.0%!d(MISSING)" and
release title "Release 1.0%!d(MISSING)"; the percent-free version
"2.0.0" of the spec's example does round-trip. -/
theorem tagName_percent_verb_diverges :
    (mkTagRelease "1.0%d").tagName = "1.0%!d(MISSING)" ∧
    (mkTagRelease "1.0%d").tagName ≠ "1.0%d" ∧
    (mkTagRelease "1.0%d").releaseTitle = "Release 1.0%!d(MISSING)" ∧
    (mkTagRelease "2.0.0").tagName = "2.0.0" ∧
    (mkTagRelease "2.0.0").releaseTitle = "Release 2.0.0" := by
  refine ⟨rfl, by decide, rfl, rfl, rfl⟩

/-- Claim C2 as stated is false at a concrete archive: the locator has no
directory check, so a directory entry whose name ends in ".geode" (its
directory flag coming from the archive's external attributes, with no
trailing slash in the name) is selected ahead of a later file entry. -/
theorem extract_selects_directory_entry :
    extractGeodeFileFromZip
        [⟨"foo.geode", true, ""⟩, ⟨"bar.geode", false, "moddata"⟩] =
      .ok ("", "foo.geode") ∧
    (ZipEntry.mk "foo.geode" true "").isDir = true := ⟨rfl, rfl⟩

/-- Claim C2, amended: the Nested Module Locator selects the first entry
in archive-native order whose name ends with ".geode" (case-sensitive
suffix match), with no directory check; when several entries qualify the
first one wins, and when none qualifies it fails with `ModuleNotFound`. -/
theorem extract_first_geode_suffix_match (es : List ZipEntry) :
    extractGeodeFileFromZip es =
      match es.find? (fun e => goHasSuffix e.name ".geode") with
      | some e => .ok (e.content, filepathBase e.name)
      | none => .error .ModuleNotFound :=
  extract_eq_find es

/-- Claim C3: when the first matching metadata entry's content is not
valid JSON syntax (the decoder's scan of a first value fails), the
Metadata Version Reader fails with `MetadataCorrupt`. -/
theorem metadata_invalid_syntax_corrupt (es : List ZipEntry) (e : ZipEntry)
    (h1 : es.find? modMetadataPred = some e)
    (h2 : goJsonNext e.content = none) :
    parseVersionFromGeode es = .error .MetadataCorrupt := by
  rw [parseVersion_eq_find, h1]
  show readModEntry e.content = .error .MetadataCorrupt
  unfold readModEntry decodeModJSON
  rw [h2]

/-- Witness for C3 at the archive holding one entry "mod.json" whose
content "not json" is not valid JSON syntax. -/
theorem metadata_invalid_syntax_corrupt_witness :
    parseVersionFromGeode [⟨"mod.json", false, "not json"⟩] =
      .error .MetadataCorrupt :=
  metadata_invalid_syntax_corrupt [⟨"mod.json", false, "not json"⟩]
    ⟨"mod.json", false, "not json"⟩ rfl rfl

/-- Claim C4: when the first matching metadata entry (non-directory, name
ending in "mod.json", subdirectories included) decodes to a record with a
non-empty version, the Reader returns that version string unmodified. -/
theorem metadata_version_returned_unmodified (es : List ZipEntry)
    (e : ZipEntry) (m : ModJSON) (h1 : es.find? modMetadataPred = some e)
    (h2 : decodeModJSON e.content = some m) (h3 : m.version ≠ "") :
    parseVersionFromGeode es = .ok m.version := by
  rw [parseVersion_eq_find, h1]
  show readModEntry e.content = .ok m.version
  unfold readModEntry
  rw [h2]
  simp [h3]

/-- Witness for C4 at the spec's own example: entry "assets/mod.json"
with a version of "1.2.3" yields exactly "1.2.3". -/
theorem metadata_version_returned_unmodified_witness :
    parseVersionFromGeode
        [⟨"assets/mod.json", false, "\x7b\"version\":\"1.2.3\"\x7d"⟩] =
      .ok "1.2.3" :=
  metadata_version_returned_unmodified
    [⟨"assets/mod.json", false, "\x7b\"version\":\"1.2.3\"\x7d"⟩]
    ⟨"assets/mod.json", false, "\x7b\"version\":\"1.2.3\"\x7d"⟩
    ⟨"1.2.3"⟩ rfl rfl (by decide)

/-- Claim C5 as stated is false at a concrete input: the content
consisting of an object whose "version" member is JSON null decodes
successfully, its version field is neither absent nor the empty string,
yet the Reader fails with `MissingVersion` (Go decodes null into a string
field as a no-op, leaving the zero value). -/
theorem missing_version_iff_cex :
    decodeModJSON "\x7b\"version\":null\x7d" = some ⟨""⟩ ∧
    claimVersionAbsentOrEmpty "\x7b\"version\":null\x7d" = false ∧
    parseVersionFromGeode [⟨"mod.json", false, "\x7b\"version\":null\x7d"⟩] =
      .error .MissingVersion :=
  ⟨rfl, rfl, rfl⟩

/-- Claim C5, amended: for every matched metadata entry whose content
decodes successfully to a record, the Reader fails with `MissingVersion`
iff the decoded version field is the empty string — which happens exactly
when the version member is absent, JSON null, or an explicit empty
string — and otherwise succeeds with that version. -/
theorem missing_version_iff_decoded_empty (es : List ZipEntry)
    (e : ZipEntry) (m : ModJSON) (h1 : es.find? modMetadataPred = some e)
    (h2 : decodeModJSON e.content = some m) :
    (parseVersionFromGeode es = .error .MissingVersion ↔ m.version = "") ∧
    (m.version ≠ "" → parseVersionFromGeode es = .ok m.version) := by
  have hread : parseVersionFromGeode es = readModEntry e.content := by
    rw [parseVersion_eq_find, h1]
  rw [hread]
  unfold readModEntry
  rw [h2]
  by_cases hv : m.version = "" <;> simp [hv]

/-- Witness for the amended C5 at content lacking a version member. -/
theorem missing_version_iff_decoded_empty_witness :
    (parseVersionFromGeode [⟨"mod.json", false, "\x7b\"name\":\"x\"\x7d"⟩] =
        .error .MissingVersion ↔ (ModJSON.mk "").version = "") ∧
    ((ModJSON.mk "").version ≠ "" →
      parseVersionFromGeode [⟨"mod.json", false, "\x7b\"name\":\"x\"\x7d"⟩] =
        .ok (ModJSON.mk "").version) :=
  missing_version_iff_decoded_empty
    [⟨"mod.json", false, "\x7b\"name\":\"x\"\x7d"⟩]
    ⟨"mod.json", false, "\x7b\"name\":\"x\"\x7d"⟩ ⟨""⟩ rfl rfl

/-- Claim C6: when no entry of the outer archive has a name ending in
".geode", the locator scans all entries and fails with `ModuleNotFound`
(the error carries no content bytes and no filename). -/
theorem extract_no_match_module_not_found (es : List ZipEntry)
    (h : ∀ e ∈ es, goHasSuffix e.name ".geode" = false) :
    extractGeodeFileFromZip es = .error .ModuleNotFound := by
  induction es with
  | nil => rfl
  | cons a rest ih =>
    have ha := h a (by simp)
    simp only [extractGeodeFileFromZip, ha, Bool.false_eq_true, if_false]
    exact ih (fun e he => h e (by simp [he]))

/-- Witness for C6 at an archive with two entries, neither ending in
".geode". -/
theorem extract_no_match_module_not_found_witness :
    extractGeodeFileFromZip
        [⟨"a.txt", false, "t"⟩, ⟨"build/readme.md", false, "r"⟩] =
      .error .ModuleNotFound :=
  extract_no_match_module_not_found
    [⟨"a.txt", false, "t"⟩, ⟨"build/readme.md", false, "r"⟩] (by decide)

/-- Claim C7: on an empty run list the selector fails with `NoRunsFound`,
and the artifact-listing operation is not among the remote operations
performed, whatever the artifact list would have been. -/
theorem selector_empty_runs_no_artifact_listing (arts : List Artifact) :
    (selectRunAndArtifact [] arts).1 = .error .NoRunsFound ∧
    ApiOp.listArtifacts ∉ (selectRunAndArtifact [] arts).2 := by
  refine ⟨rfl, ?_⟩
  simp [selectRunAndArtifact]

/-- Claim C8: with a non-empty run list the selector takes the first run
as latest and returns the first artifact named "Build Output" owned by
that run, failing with `ArtifactNotFound` when the full scan finds none. -/
theorem selector_picks_first_matching_artifact (r : WorkflowRun)
    (rs : List WorkflowRun) (arts : List Artifact) :
    (selectRunAndArtifact (r :: rs) arts).1 =
      match arts.find? (fun a => a.name == "Build Output" && a.workflowRunID == r.id) with
      | some a => .ok (r, a)
      | none => .error .ArtifactNotFound := by
  show (match findArtifactLoop r.id arts with
    | some a => (Except.ok (r, a), [ApiOp.listRuns, ApiOp.listArtifacts])
    | none => (Except.error GwtError.ArtifactNotFound, [ApiOp.listRuns, ApiOp.listArtifacts])).1 = _
  rw [findArtifactLoop_eq_find]
  cases arts.find? (fun a => a.name == "Build Output" && a.workflowRunID == r.id) <;> rfl

/-- Claim C9: every filename the locator returns is the selected entry's
name with all leading directory components stripped, i.e. its last
slash-separated component. -/
theorem extract_filename_strips_directories (es : List ZipEntry)
    (d f : String) (h : extractGeodeFileFromZip es = .ok (d, f)) :
    ∃ e ∈ es, goHasSuffix e.name ".geode" = true ∧ d = e.content ∧
      f = lastSlashComponent e.name := by
  induction es with
  | nil => exact absurd h (by simp [extractGeodeFileFromZip])
  | cons a rest ih =>
    by_cases hs : goHasSuffix a.name ".geode"
    · simp only [extractGeodeFileFromZip, hs, if_true, Except.ok.injEq, Prod.mk.injEq] at h
      exact ⟨a, by simp, hs, h.1.symm, by
        rw [← h.2, filepathBase_of_geode_suffix a.name hs]⟩
    · simp only [extractGeodeFileFromZip, hs, Bool.false_eq_true, if_false] at h
      obtain ⟨e, he, h1, h2, h3⟩ := ih h
      exact ⟨e, by simp [he], h1, h2, h3⟩

/-- Witness for C9 at the spec's example entry "build/mod-v1.geode". -/
theorem extract_filename_strips_directories_witness :
    ∃ e ∈ [ZipEntry.mk "build/mod-v1.geode" false "m"],
      goHasSuffix e.name ".geode" = true ∧ "m" = e.content ∧
      "mod-v1.geode" = lastSlashComponent e.name :=
  extract_filename_strips_directories
    [⟨"build/mod-v1.geode", false, "m"⟩] "m" "mod-v1.geode" rfl

/-- Claim C10 as stated is false at a concrete input: the content
consisting of the valid JSON object with a numeric version member
followed by a trailing byte makes the Reader fail with
`MetadataCorrupt` (a type error of the unmarshal step, not the trailing
byte), while the claim allows only success or `MissingVersion` for any
valid leading object. -/
theorem decode_trailing_bytes_cex :
    goJsonNext "\x7b\"version\":0\x7dx" =
      some (Json.obj [("version", Json.num "0")], ['x']) ∧
    parseVersionFromGeode [⟨"mod.json", false, "\x7b\"version\":0\x7dx"⟩] =
      .error .MetadataCorrupt :=
  ⟨rfl, rfl⟩

/-- Claim C10, amended: the decoder reads only the first JSON value of
the matched entry; when that value is an object that unmarshals into the
metadata record (its version member, if any, a string or null), the
Reader never raises `MetadataCorrupt` whatever trailing bytes follow the
object: it succeeds with the decoded version, or raises `MissingVersion`
when that version is empty. -/
theorem decode_reads_first_value_only (es : List ZipEntry) (e : ZipEntry)
    (fields : List (String × Json)) (rest : List Char) (m : ModJSON)
    (h1 : es.find? modMetadataPred = some e)
    (h2 : goJsonNext e.content = some (Json.obj fields, rest))
    (h3 : unmarshalMod (Json.obj fields) = some m) :
    parseVersionFromGeode es ≠ .error .MetadataCorrupt ∧
    parseVersionFromGeode es =
      (if m.version = "" then .error .MissingVersion else .ok m.version) := by
  have hdec : decodeModJSON e.content = some m := by
    unfold decodeModJSON
    rw [h2]
    exact h3
  have hread : parseVersionFromGeode es = readModEntry e.content := by
    rw [parseVersion_eq_find, h1]
  rw [hread]
  unfold readModEntry
  rw [hdec]
  by_cases hv : m.version = "" <;> simp [hv]

/-- Witness for the amended C10: a version object followed by trailing
garbage still yields its version. -/
theorem decode_reads_first_value_only_witness :
    parseVersionFromGeode
        [⟨"mod.json", false, "\x7b\"version\":\"1.0\"\x7dgarbage"⟩] ≠
      .error .MetadataCorrupt ∧
    parseVersionFromGeode
        [⟨"mod.json", false, "\x7b\"version\":\"1.0\"\x7dgarbage"⟩] =
      (if (ModJSON.mk "1.0").version = "" then .error .MissingVersion
        else .ok (ModJSON.mk "1.0").version) :=
  decode_reads_first_value_only
    [⟨"mod.json", false, "\x7b\"version\":\"1.0\"\x7dgarbage"⟩]
    ⟨"mod.json", false, "\x7b\"version\":\"1.0\"\x7dgarbage"⟩
    [("version", Json.str "1.0")] "garbage".data ⟨"1.0"⟩ rfl rfl rfl

end Gwtreleaser
